import Mathlib

/-!
Verification of the header-detection / column-classification / answer-normalization
pipeline of the EncuestaEgresadosUTP survey-report application (src/app.py).

Python text values are modelled as Lean String (a structure over List Char);
pandas Series cells as Option String (None models a missing value; the
header-detected load path uses keep_default_na=False and therefore produces
plain String cells, modelled as List String).  Unicode-dependent primitives
(str.lower, NFD decomposition with combining-mark removal) are modelled by
finite character tables over the repertoire this application manipulates
(ASCII letters plus the Spanish accented vowels, n with tilde and u with
diaeresis); str.strip and the regex class \s are modelled by the six ASCII
whitespace characters plus the non-breaking space.
-/

namespace Encuesta

/-- Whitespace as stripped by str.strip and matched by the regex class \s:
space, tab, newline, carriage return, vertical tab, form feed, and the
non-breaking space U+00A0. -/
def isPySpace (c : Char) : Bool :=
  c = ' ' || c = '\t' || c = '\n' || c = '\r' ||
  c = Char.ofNat 11 || c = Char.ofNat 12 || c = Char.ofNat 160

/-- The non-breaking space character U+00A0. -/
def nbspChar : Char := Char.ofNat 160

/-- Lowercasing table for str.lower over this application's repertoire:
ASCII capitals and the accented Spanish capitals. -/
def lowerTable : List (Char × Char) :=
  [('A', 'a'), ('B', 'b'), ('C', 'c'), ('D', 'd'), ('E', 'e'), ('F', 'f'),
   ('G', 'g'), ('H', 'h'), ('I', 'i'), ('J', 'j'), ('K', 'k'), ('L', 'l'),
   ('M', 'm'), ('N', 'n'), ('O', 'o'), ('P', 'p'), ('Q', 'q'), ('R', 'r'),
   ('S', 's'), ('T', 't'), ('U', 'u'), ('V', 'v'), ('W', 'w'), ('X', 'x'),
   ('Y', 'y'), ('Z', 'z'),
   ('Á', 'á'), ('É', 'é'), ('Í', 'í'), ('Ó', 'ó'), ('Ú', 'ú'), ('Ñ', 'ñ'),
   ('Ü', 'ü')]

/-- Python str.lower modelled per character by table lookup. -/
def pyLower (c : Char) : Char :=
  ((lowerTable.find? (fun p => p.1 = c)).map Prod.snd).getD c

/-- NFD decomposition followed by removal of combining marks (category Mn),
modelled per character.  In the source this step always runs after
str.lower, so only lowercase accented characters reach it. -/
def accentTable : List (Char × Char) :=
  [('á', 'a'), ('é', 'e'), ('í', 'i'), ('ó', 'o'), ('ú', 'u'), ('ñ', 'n'),
   ('ü', 'u')]

/-- Accent stripping (NFD then drop Mn) per character. -/
def stripMn (c : Char) : Char :=
  ((accentTable.find? (fun p => p.1 = c)).map Prod.snd).getD c

/-- The per-character effect of norm after whitespace handling:
lowercase, then strip the combining accent. -/
def normChar (c : Char) : Char := stripMn (pyLower c)

/-- Replacement of the non-breaking space by a regular space,
modelling the replace of unicode 00A0 in norm. -/
def nbspToSpace (c : Char) : Char := if c = nbspChar then ' ' else c

/-- Leading-whitespace removal (one side of str.strip). -/
def dropLeadingWs (l : List Char) : List Char := l.dropWhile isPySpace

/-- Trailing-whitespace removal (the other side of str.strip). -/
def dropTrailingWs (l : List Char) : List Char :=
  ((l.reverse).dropWhile isPySpace).reverse

/-- Python str.strip on a character list. -/
def pyStripL (l : List Char) : List Char := dropTrailingWs (dropLeadingWs l)

/-- Collapsing of internal whitespace runs to single spaces, modelling the
regex substitution of one-or-more whitespace by a single space.  The flag
records whether the previous character belonged to a whitespace run. -/
def collapseAux : Bool → List Char → List Char
  | _, [] => []
  | prevSpace, c :: rest =>
    if isPySpace c then
      if prevSpace then collapseAux true rest
      else ' ' :: collapseAux true rest
    else c :: collapseAux false rest

/-- The norm function of the source on character lists: replace the
non-breaking space, strip, lowercase, strip accents, collapse whitespace. -/
def normL (l : List Char) : List Char :=
  collapseAux false ((pyStripL (l.map nbspToSpace)).map normChar)

/-- The norm function of the source on strings. -/
def norm (s : String) : String := ⟨normL s.data⟩

/-- The norm function on a possibly missing value: the source maps None and
NaN to the empty string before any other processing. -/
def normOpt : Option String → String
  | none => ""
  | some s => norm s

/-- Python str.strip on strings. -/
def pyStripS (s : String) : String := ⟨pyStripL s.data⟩

/-- Python str.lower on strings. -/
def pyLowerS (s : String) : String := ⟨s.data.map pyLower⟩

/-- Python str.upper modelled per character (inverse table of pyLower). -/
def upperTable : List (Char × Char) := lowerTable.map (fun p => (p.2, p.1))

/-- Python str.upper per character. -/
def pyUpper (c : Char) : Char :=
  ((upperTable.find? (fun p => p.1 = c)).map Prod.snd).getD c

/-- Python str.upper on strings. -/
def pyUpperS (s : String) : String := ⟨s.data.map pyUpper⟩

/-- Test whether the first list is a prefix of the second. -/
def startsWithL : List Char → List Char → Bool
  | [], _ => true
  | _ :: _, [] => false
  | a :: as, b :: bs => a == b && startsWithL as bs

/-- Substring containment on character lists, modelling the Python
operator in on strings (the empty needle is contained everywhere). -/
def hasSubL (needle : List Char) : List Char → Bool
  | [] => needle.isEmpty
  | hay@(_ :: t) => startsWithL needle hay || hasSubL needle t

/-- Substring containment on strings. -/
def hasSubS (needle hay : String) : Bool := hasSubL needle.data hay.data

/-! Header detection (load_data_with_header_detection). -/

/-- PROGRAM_PATTERNS of the source. -/
def programPatterns : List String := ["programa"]

/-- YEAR_PATTERNS of the source, verbatim. -/
def yearPatterns : List String :=
  ["añoegreso", "año egreso", "anoegreso", "ano egreso",
   "año de egreso", "ano de egreso"]

/-- A tabular frame: ordered column names plus row-major cell values.
Cells are plain strings because the header-detected parse runs pandas
read_csv with dtype=str and keep_default_na=False, so no cell is ever a
missing value on this path. -/
structure Frame where
  cols : List String
  rows : List (List String)
deriving DecidableEq, Repr

/-- True when any cell of the row, normalized, contains a program pattern. -/
def rowHasProgram (row : List String) : Bool :=
  row.any (fun v => programPatterns.any (fun p => hasSubS p (norm v)))

/-- True when any cell of the row, normalized, contains a year pattern. -/
def rowHasYear (row : List String) : Bool :=
  row.any (fun v => yearPatterns.any (fun p => hasSubS p (norm v)))

/-- A row is a header row when it has both a program and a year marker. -/
def isHeaderRow (row : List String) : Bool := rowHasProgram row && rowHasYear row

/-- First-match scan of the rows, carrying the index of the next row. -/
def findHeaderIdxAux : Nat → List (List String) → Option Nat
  | _, [] => none
  | i, r :: rest => if isHeaderRow r then some i else findHeaderIdxAux (i + 1) rest

/-- The header scan of the source: look at the first min(rows, 50) rows and
return the index of the first row carrying both markers. -/
def findHeaderIdx (raw : List (List String)) : Option Nat :=
  findHeaderIdxAux 0 (raw.take 50)

/-- Header-name cleanup of the source: replace the non-breaking space by a
space and strip surrounding whitespace; casing and accents are preserved. -/
def cleanHeaderCell (s : String) : String := ⟨pyStripL (s.data.map nbspToSpace)⟩

/-- The header-detected load path: when the scan finds a header row at
index i, the column names are the cleaned cells of row i and the data rows
are the raw rows strictly after row i.  The none result models the
fallback path that re-reads the file with a standard first-row header. -/
def loadFromRaw (raw : List (List String)) : Option (Frame × Nat) :=
  match findHeaderIdx raw with
  | none => none
  | some i =>
      some (⟨((raw.drop i).headD []).map cleanHeaderCell, raw.drop (i + 1)⟩, i)

/-! Column classification (detect_program_year_columns). -/

/-- True when a column name, normalized, contains a program pattern. -/
def progMatchB (c : String) : Bool :=
  programPatterns.any (fun p => hasSubS p (norm c))

/-- True when a column name, normalized, contains a year pattern. -/
def yearMatchB (c : String) : Bool :=
  yearPatterns.any (fun p => hasSubS p (norm c))

/-- The scan of detect_program_year_columns: for each column in order, the
program check and the year check run independently, each filling its slot
only when the slot is still empty. -/
def detectProgYearAux : Option String → Option String → List String →
    Option String × Option String
  | p, y, [] => (p, y)
  | p, y, c :: rest =>
    let p2 := if p.isNone && progMatchB c then some c else p
    let y2 := if y.isNone && yearMatchB c then some c else y
    detectProgYearAux p2 y2 rest

/-- detect_program_year_columns: both roles resolved, or an error carrying
the list of all column names in their frame order. -/
def detectProgramYearCols (cols : List String) : Except (List String) (String × String) :=
  match detectProgYearAux none none cols with
  | (some p, some y) => Except.ok (p, y)
  | _ => Except.error cols

/-- Keep the first option when present, otherwise the second (used to
characterize the accumulator of the classifier scan). -/
def orElseO (o d : Option String) : Option String :=
  match o with
  | some a => some a
  | none => d

/-! Benefits bucketing (normalize_beneficios). -/

/-- The fixed benefits free-text question column name. -/
def beneficiosCol : String :=
  "¿Qué beneficios te gustaría obtener de una asociación de egresados?"

/-- normalize_beneficios of the source: an ordered first-match-wins cascade
over the normalized text, with three checks run against the merely
lowercased (accent-preserving) original text exactly as in the source. -/
def normalizeBeneficios (texto : String) : String :=
  let t := norm texto
  if t = "" then ""
  else if hasSubS "no aplica" t || hasSubS "ninguno" t || hasSubS "ningun " t ||
      hasSubS "ninguno por el momento" t || hasSubS "no tengo conocimiento" t ||
      hasSubS "no conozco los beneficios" t ||
      hasSubS "no conozco los beneficios actuales" t then
    "Ninguno / no conoce beneficios"
  else if hasSubS "descuento" t || hasSubS "caminatas ecologicas" t ||
      hasSubS "caminatas ecológicas" (pyLowerS texto) then
    "Descuentos y beneficios económicos"
  else if hasSubS "empleabilidad" t || hasSubS "vinculacion laboral" t ||
      hasSubS "vinculación laboral" (pyLowerS texto) || hasSubS "bolsa de empleo" t ||
      hasSubS "vinculacion a la bolsa de empleo" t then
    "Vinculación laboral / empleabilidad"
  else if hasSubS "informacion" t || hasSubS "información" (pyLowerS texto) then
    "Información y comunicación con egresados"
  else if hasSubS "actividades deportivas" t || hasSubS "actividades culturales" t ||
      hasSubS "recreativas" t then
    "Actividades deportivas, culturales y recreativas"
  else if t = "todos" then "Todos los beneficios"
  else pyStripS texto

/-! Counting and ordering (pandas value_counts and sorts). -/

/-- Add one occurrence of a value to an association list of counts,
creating a new entry at the end on first discovery. -/
def bump (acc : List (String × Nat)) (v : String) : List (String × Nat) :=
  match acc with
  | [] => [(v, 1)]
  | (k, n) :: rest => if k = v then (k, n + 1) :: rest else (k, n) :: bump rest v

/-- Occurrence counts per distinct value, keys in first-discovery order. -/
def tally (l : List String) : List (String × Nat) := l.foldl bump []

/-- Insertion into a sorted list: the element goes right before the first
element it relates to, making the sort stable. -/
def insertBy {α : Type} (le : α → α → Bool) (a : α) : List α → List α
  | [] => [a]
  | b :: rest => if le a b then a :: b :: rest else b :: insertBy le a rest

/-- Stable insertion sort by the given relation. -/
def sortBy {α : Type} (le : α → α → Bool) (l : List α) : List α :=
  l.foldr (insertBy le) []

/-- Descending-by-count comparison; with the stable insertion sort built
by foldr, comparing with less-or-equal keeps equal counts in discovery
order. -/
def countDescLt (a b : String × Nat) : Bool := Nat.ble b.2 a.2

/-- pandas value_counts: counts per distinct value, ordered by descending
count. -/
def valueCounts (l : List String) : List (String × Nat) :=
  sortBy countDescLt (tally l)

/-- Lexicographic code-point order on character lists (Python sorted on
strings). -/
def lexLeL : List Char → List Char → Bool
  | [], _ => true
  | _ :: _, [] => false
  | a :: as, b :: bs => if a = b then lexLeL as bs else Nat.blt a.toNat b.toNat

/-- Lexicographic order on strings. -/
def lexLeS (s t : String) : Bool := lexLeL s.data t.data

/-- First-occurrence deduplication (pandas unique / Python set; any
deduplication order is interchangeable here because every use sorts the
result afterwards). -/
def dedupFirstAux (seen : List String) : List String → List String
  | [] => []
  | v :: rest =>
    if seen.contains v then dedupFirstAux seen rest
    else v :: dedupFirstAux (v :: seen) rest

/-- First-occurrence deduplication of a list of strings. -/
def dedupFirst (l : List String) : List String := dedupFirstAux [] l

/-! Numeric parsing (Python float and pandas to_numeric). -/

/-- Decimal digit test. -/
def isDigitChar (c : Char) : Bool := Nat.ble 48 c.toNat && Nat.ble c.toNat 57

/-- Numeric value of a digit list read in base ten. -/
def digitsVal (l : List Char) : Nat :=
  l.foldl (fun a c => a * 10 + (c.toNat - 48)) 0

/-- Comma to dot replacement applied before Likert parsing. -/
def commaToDot (c : Char) : Char := if c = ',' then '.' else c

/-- Rational numbers are built with mkRat and divInt rather than the
rational field operations, because the latter are irreducible; the lemmas
qAdd_eq, qSum_eq, qDiv_eq and qNeg_eq below prove these constructions
equal to the standard operations. -/
def qAdd (a b : ℚ) : ℚ :=
  mkRat (a.num * (b.den : ℤ) + b.num * (a.den : ℤ)) (a.den * b.den)

/-- Sum of a list of rationals. -/
def qSum (l : List ℚ) : ℚ := l.foldr qAdd (mkRat 0 1)

/-- Division of rationals via divInt. -/
def qDiv (a b : ℚ) : ℚ := Rat.divInt (a.num * (b.den : ℤ)) ((a.den : ℤ) * b.num)

/-- Negation of a rational via mkRat. -/
def qNeg (q : ℚ) : ℚ := mkRat (-q.num) q.den

/-- Unsigned decimal parse: digits, an optional single dot, at least one
digit overall, read as (integer digits concatenated) over ten to the
number of fractional digits.  This models the finite-decimal fragment of
Python float; the source never feeds it exponents or the words inf and
nan. -/
def parseDecimal (l : List Char) : Option ℚ :=
  let ip := l.takeWhile (fun c => !(c == '.'))
  let fp := (l.dropWhile (fun c => !(c == '.'))).drop 1
  if ip.all isDigitChar && fp.all isDigitChar && !(ip.isEmpty && fp.isEmpty) then
    some (mkRat ((digitsVal ip * 10 ^ fp.length + digitsVal fp : ℕ) : ℤ)
      (10 ^ fp.length))
  else none

/-- Signed decimal parse after whitespace stripping. -/
def parseSigned (t : List Char) : Option ℚ :=
  match t with
  | '+' :: rest => parseDecimal rest
  | '-' :: rest => (parseDecimal rest).map qNeg
  | _ => parseDecimal t

/-- The Likert numeric coercion of the source: replace commas by dots,
then parse as a Python float (which ignores surrounding whitespace). -/
def pyFloat? (s : String) : Option ℚ :=
  parseSigned (pyStripL (s.data.map commaToDot))

/-- pandas to_numeric with errors coerce on one value (no comma handling). -/
def pdToNum? (s : String) : Option ℚ := parseSigned (pyStripL s.data)

/-- Round half to even on rationals, the rounding used by pandas round on
float64 values, computed on the numerator and denominator: with
f = floor q and remainder r = num - f * den (so q = f + r / den with
0 <= r < den), the value rounds down when r / den < 1/2, up when
r / den > 1/2, and to the even neighbour on a tie. -/
def roundHalfEven (q : ℚ) : ℤ :=
  let f := q.num.fdiv q.den
  let r := q.num - f * q.den
  if 2 * r < (q.den : ℤ) then f
  else if (q.den : ℤ) < 2 * r then f + 1
  else if f % 2 = 0 then f else f + 1

/-! Per-question aggregators (chart_binary, chart_categorical, chart_multi,
chart_likert, chart_multi_from_cols).  Each returns the Distribution it
hands to the rendering sink, or none for the no-data informational path. -/

/-- The case-insensitive yes pattern: full match of si, sí, true, 1 or x. -/
def yesMatch (v : String) : Bool :=
  let w := pyLowerS v
  w == "si" || w == "sí" || w == "true" || w == "1" || w == "x"

/-- The case-insensitive no pattern: full match of no, false or 0. -/
def noMatch (v : String) : Bool :=
  let w := pyLowerS v
  w == "no" || w == "false" || w == "0"

/-- The per-value classification of chart_binary. -/
def mapBinary (v : String) : String :=
  if yesMatch v then "Sí" else if noMatch v then "No" else v

/-- chart_binary: drop missing values, trim, classify, count. -/
def chartBinary (cells : List (Option String)) : Option (List (String × Nat)) :=
  let serie := (cells.filterMap id).map pyStripS
  if serie.isEmpty then none
  else some (valueCounts (serie.map mapBinary))

/-- chart_categorical: drop missing values, trim, apply the benefits
bucketing only for the fixed benefits column, count, keep top k. -/
def chartCategorical (col : String) (cells : List (Option String)) (topk : Nat) :
    Option (List (String × Nat)) :=
  let serie0 := (cells.filterMap id).map pyStripS
  let serie := if pyStripS col = beneficiosCol then serie0.map normalizeBeneficios
    else serie0
  if serie.isEmpty then none
  else some ((valueCounts serie).take topk)

/-- Delimiter set of the MULTI splitter. -/
def isDelim (c : Char) : Bool := c == ';' || c == ',' || c == '/'

/-- Split a character list on the delimiters, keeping empty parts. -/
def splitDelimsL : List Char → List (List Char)
  | [] => [[]]
  | c :: rest =>
    if isDelim c then [] :: splitDelimsL rest
    else
      match splitDelimsL rest with
      | [] => [[c]]
      | p :: ps => (c :: p) :: ps

/-- split_multi_values: for each non-missing value, split on the
delimiters, trim every part, discard empty parts, and pool all tokens. -/
def splitMultiValues (cells : List (Option String)) : List String :=
  (cells.filterMap id).flatMap
    (fun v =>
      (((splitDelimsL v.data).map pyStripL).filter (fun p => !p.isEmpty)).map
        (fun l => (⟨l⟩ : String)))

/-- chart_multi: pool the split tokens, count, keep top k. -/
def chartMulti (cells : List (Option String)) (topk : Nat) :
    Option (List (String × Nat)) :=
  let serie := splitMultiValues cells
  if serie.isEmpty then none
  else some ((valueCounts serie).take topk)

/-- Outcome of chart_likert: the no-data message, the distinct message for
a column where no value parses as a number, or the chart payload of the
five counts and the mean of the unrounded parsed values. -/
inductive LikertResult
  | noData
  | cantInterpret
  | chart (dist : List (ℤ × Nat)) (mean : ℚ)
deriving DecidableEq, Repr

/-- chart_likert: drop missing values, parse each value as a decimal
number, round half to even, count into the five fixed buckets one to five
filling absent buckets with zero, and expose the mean of the unrounded
parsed values (display formats it to two decimals). -/
def chartLikert (cells : List (Option String)) : LikertResult :=
  let serie := cells.filterMap id
  if serie.isEmpty then LikertResult.noData
  else
    let numeric := serie.filterMap pyFloat?
    if numeric.isEmpty then LikertResult.cantInterpret
    else
      let rounded := numeric.map roundHalfEven
      LikertResult.chart
        (([1, 2, 3, 4, 5] : List ℤ).map (fun k => (k, rounded.count k)))
        (qDiv (qSum numeric) (mkRat numeric.length 1))

/-! Filters (get_program_year_filters). -/

/-- Values the program cleanup treats as absent after trimming. -/
def nullLikeVals : List String := ["", "nan", "NaN", "NULL", "null"]

/-- The program column cleanup: trim, then map the null-like values to
missing. -/
def progClean (v : String) : Option String :=
  let t := pyStripS v
  if nullLikeVals.contains t then none else some t

/-- The sentinel offered on the program axis. -/
def sentinelProg : String := "Todos los programas"

/-- The sentinel offered on the year axis. -/
def sentinelYear : String := "Todos"

/-- Cell of a row under a column name: position of the first column with
that name, defaulting to the empty string when absent. -/
def cellAt (fr : Frame) (row : List String) (col : String) : String :=
  match fr.cols.findIdx? (fun c => c == col) with
  | some i => row.getD i ""
  | none => ""

/-- The column of a frame as a list of cell values. -/
def colCells (fr : Frame) (col : String) : List String :=
  fr.rows.map (fun row => cellAt fr row col)

/-- The candidate program values: distinct cleaned program cells, sorted
lexicographically (the sentinel is prepended by the selector widget). -/
def programasOf (fr : Frame) (progCol : String) : List String :=
  sortBy lexLeS (dedupFirst ((colCells fr progCol).filterMap progClean))

/-- The year pattern of the source at one position: 19 then two digits,
or 20 then two digits, or the literal 2100, alternatives tried in order. -/
def matchYearAt : List Char → Option (List Char)
  | a :: b :: c :: d :: _ =>
    if a == '1' && b == '9' && isDigitChar c && isDigitChar d then some [a, b, c, d]
    else if a == '2' && b == '0' && isDigitChar c && isDigitChar d then some [a, b, c, d]
    else if a == '2' && b == '1' && c == '0' && d == '0' then some [a, b, c, d]
    else none
  | _ => none

/-- re.search for the year pattern: first match position wins. -/
def yearSearchL : List Char → Option (List Char)
  | [] => none
  | c :: rest =>
    match matchYearAt (c :: rest) with
    | some m => some m
    | none => yearSearchL rest

/-- Year extraction from one trimmed cell. -/
def yearSearchS (s : String) : Option String :=
  (yearSearchL s.data).map (fun l => (⟨l⟩ : String))

/-- Numeric order on year strings (the key int of the source sort). -/
def yearLe (a b : String) : Bool := Nat.ble (digitsVal a.data) (digitsVal b.data)

/-- The candidate year values: distinct first regex matches over the
trimmed year cells, sorted numerically ascending. -/
def yearsOf (fr : Frame) (yearCol : String) : List String :=
  sortBy yearLe (dedupFirst (((colCells fr yearCol).map pyStripS).filterMap yearSearchS))

/-- The row mask of the source: the program conjunct compares the cleaned
program cell for equality with the selection, the year conjunct tests
containment of the selected year in the trimmed year cell (str.contains
treats the selection as a regular expression; on the offered year values,
which are pure digit strings, that is exactly substring containment). -/
def rowKeptB (fr : Frame) (progCol yearCol progSel yearSel : String)
    (row : List String) : Bool :=
  (progSel == sentinelProg || progClean (cellAt fr row progCol) == some progSel) &&
  (yearSel == sentinelYear || hasSubS yearSel (pyStripS (cellAt fr row yearCol)))

/-- The filtered frame: same columns, rows kept by the mask in order. -/
def filterFrame (fr : Frame) (progCol yearCol progSel yearSel : String) : Frame :=
  ⟨fr.cols, fr.rows.filter (rowKeptB fr progCol yearCol progSel yearSel)⟩

/-! Report driver (the per-question dispatch of main). -/

/-- A configured question: type, section, label, single column, option
columns. -/
structure Question where
  qtype : String
  qsection : String
  label : String
  column : Option String
  columns : List String
deriving DecidableEq, Repr

/-- MULTI_COLUMNS aggregation for one option column: count rows whose
value coerces to a nonzero number (non-numeric and missing coerce to 0). -/
def countNonzero (fr : Frame) (c : String) : Nat :=
  ((colCells fr c).filter
    (fun v =>
      match pdToNum? v with
      | some q => !(q.num == 0)
      | none => false)).length

/-- Descending order on option-column counts. -/
def chartMultiFromCols (fr : Frame) (optionCols : List String) (topk : Nat) :
    Option (List (String × Nat)) :=
  if optionCols.isEmpty then none
  else
    let data := optionCols.filterMap
      (fun c => if fr.cols.contains c then some (c, countNonzero fr c) else none)
    if data.isEmpty then none
    else some ((sortBy countDescLt data).take topk)

/-- What the driver emits for one question: the local missing-column
warning, one of the five aggregators, or the unsupported-type notice. -/
inductive RenderResult
  | warnMissing (col : Option String)
  | unsupported (qtype : String)
  | binaryOut (r : Option (List (String × Nat)))
  | categoricalOut (r : Option (List (String × Nat)))
  | multiOut (r : Option (List (String × Nat)))
  | likertOut (r : LikertResult)
  | multiColsOut (r : Option (List (String × Nat)))
deriving DecidableEq, Repr

/-- The closed set of supported question types, in the spellings the code
dispatches on (the spec names BINARY, CATEGORICAL, MULTI, LIKERT,
MULTI_COLUMNS denote these five). -/
def supportedTypes : List String :=
  ["BINARIA", "CATEGORICA", "MULTI", "LIKERT", "MULTI_COLS"]

/-- The per-question body of the report loop: uppercase the type; for any
type other than MULTI_COLS require a configured, present column, else warn
and skip; then dispatch on the five supported types, anything else getting
the local unsupported-type notice. -/
def processQuestion (fr : Frame) (topk : Nat) (q : Question) : RenderResult :=
  let qtype := pyUpperS q.qtype
  let colFalsy := match q.column with | none => true | some c => c == ""
  if qtype != "MULTI_COLS" && (colFalsy || !(fr.cols.contains (q.column.getD ""))) then
    RenderResult.warnMissing q.column
  else if qtype == "BINARIA" then
    RenderResult.binaryOut (chartBinary ((colCells fr (q.column.getD "")).map some))
  else if qtype == "CATEGORICA" then
    RenderResult.categoricalOut
      (chartCategorical (q.column.getD "") ((colCells fr (q.column.getD "")).map some) topk)
  else if qtype == "MULTI" then
    RenderResult.multiOut (chartMulti ((colCells fr (q.column.getD "")).map some) topk)
  else if qtype == "LIKERT" then
    RenderResult.likertOut (chartLikert ((colCells fr (q.column.getD "")).map some))
  else if qtype == "MULTI_COLS" then
    RenderResult.multiColsOut (chartMultiFromCols fr q.columns topk)
  else
    RenderResult.unsupported qtype

/-- The fixed report sections. -/
def sectionsList : List String := ["A", "B", "C", "D", "E"]

/-- The report loop: for each section in order, every configured question
of that section is processed independently. -/
def renderAll (fr : Frame) (topk : Nat) (qs : List Question) : List RenderResult :=
  sectionsList.flatMap
    (fun sec => (qs.filter (fun q => pyUpperS q.qsection == sec)).map
      (processQuestion fr topk))

/-! Proof-infrastructure predicates characterizing the shape of normalized
text (not part of the source; used to prove idempotence of norm). -/

/-- The plain lowercase letters, the only characters case or accent
folding can produce. -/
def normVals : List Char :=
  ['a', 'b', 'c', 'd', 'e', 'f', 'g', 'h', 'i', 'j', 'k', 'l', 'm',
   'n', 'o', 'p', 'q', 'r', 's', 't', 'u', 'v', 'w', 'x', 'y', 'z']

/-- Total count attributed to a key in an association list of counts
(proof infrastructure; robust to duplicate keys). -/
def keyCount (al : List (String × Nat)) (k : String) : Nat :=
  ((al.filter (fun p => p.1 == k)).map Prod.snd).sum

/-- True when the list does not start with whitespace. -/
def firstNotSpace : List Char → Bool
  | [] => true
  | c :: _ => !isPySpace c

/-- True when the list does not end with whitespace. -/
def lastNotSpace : List Char → Bool
  | [] => true
  | [c] => !isPySpace c
  | _ :: c :: rest => lastNotSpace (c :: rest)

/-- True when every whitespace character is a single plain space never
followed by further whitespace. -/
def collapsedB : List Char → Bool
  | [] => true
  | c :: rest =>
    (!isPySpace c || (c == ' ' && firstNotSpace rest)) && collapsedB rest

/-! Concrete fixtures used by the witnesses and counterexamples. -/

/-- A 60-row raw table whose first header-marker row has index 2. -/
def raw60 : List (List String) :=
  [[""], [""], ["Programa", "Año Egreso"]] ++ List.replicate 57 ["a", "b"]

/-- The frame the header locator produces from raw60. -/
def frame60 : Frame := ⟨["Programa", "Año Egreso"], List.replicate 57 ["a", "b"]⟩

/-- Binary fixture cells. -/
def binCells : List (Option String) :=
  [some "si", some " SI ", some "No", some "tal vez", none]

/-- Likert fixture cells. -/
def likertCells : List (Option String) := [some "2,5", none, some "x", some "4"]

/-- Filter fixture frame. -/
def frFilter : Frame :=
  ⟨["Programa", "AñoEgreso"], [["Ing ", "2019-2020"], ["Med", "2021"]]⟩

/-- Sentinel-collision fixture frame: a data cell equal to the program
sentinel. -/
def frCollide : Frame :=
  ⟨["Programa", "AñoEgreso"], [["Todos los programas", "2020"], ["X", "2021"]]⟩

/-- A frame without the column X. -/
def frNoX : Frame := ⟨["A"], ([] : List (List String))⟩

/-- A supported-type question whose column is absent from frNoX. -/
def qBinMissing : Question := ⟨"BINARIA", "A", "lbl", some "X", []⟩

/-- Cells with empty strings, as the keep_default_na=False parse loads
empty CSV cells. -/
def c10Cells : List String := ["", "a", ""]

/-- A well-formed binary question over the filter fixture frame. -/
def qBinOk : Question := ⟨"binaria", "A", "lbl", some "Programa", []⟩

/-- A question of an unsupported type with a present column. -/
def qFoo : Question := ⟨"FOO", "A", "lbl", some "Programa", []⟩

/-! Character-level lemmas. -/

theorem pyLower_spec (c : Char) :
    pyLower c = c ∨
      (c ∈ lowerTable.map Prod.fst ∧ pyLower c ∈ lowerTable.map Prod.snd) := by
  unfold pyLower
  cases h : lowerTable.find? (fun p => p.1 = c) with
  | none => exact Or.inl rfl
  | some pr =>
    right
    have hmem := List.mem_of_find?_eq_some h
    have hpred : pr.1 = c := by simpa using List.find?_some h
    refine ⟨hpred ▸ List.mem_map_of_mem Prod.fst hmem, ?_⟩
    simpa using List.mem_map_of_mem Prod.snd hmem

theorem stripMn_spec (c : Char) :
    stripMn c = c ∨
      (c ∈ accentTable.map Prod.fst ∧ stripMn c ∈ accentTable.map Prod.snd) := by
  unfold stripMn
  cases h : accentTable.find? (fun p => p.1 = c) with
  | none => exact Or.inl rfl
  | some pr =>
    right
    have hmem := List.mem_of_find?_eq_some h
    have hpred : pr.1 = c := by simpa using List.find?_some h
    refine ⟨hpred ▸ List.mem_map_of_mem Prod.fst hmem, ?_⟩
    simpa using List.mem_map_of_mem Prod.snd hmem

theorem normChar_spec (c : Char) : normChar c = c ∨ normChar c ∈ normVals := by
  rcases pyLower_spec c with h | ⟨_, hv⟩
  · unfold normChar
    rw [h]
    rcases stripMn_spec c with h2 | ⟨_, hv2⟩
    · exact Or.inl h2
    · refine Or.inr ?_
      have : ∀ v ∈ accentTable.map Prod.snd, v ∈ normVals := by decide
      exact this _ hv2
  · refine Or.inr ?_
    unfold normChar
    have : ∀ v ∈ lowerTable.map Prod.snd, stripMn v ∈ normVals := by decide
    exact this _ hv

theorem normChar_idem (c : Char) : normChar (normChar c) = normChar c := by
  rcases normChar_spec c with h | h
  · rw [h]; exact h
  · have hfix : ∀ v ∈ normVals, normChar v = v := by decide
    exact hfix _ h

theorem isPySpace_normChar (c : Char) : isPySpace (normChar c) = isPySpace c := by
  rcases pyLower_spec c with h | ⟨hk, hv⟩
  · unfold normChar
    rw [h]
    rcases stripMn_spec c with h2 | ⟨hk2, hv2⟩
    · rw [h2]
    · have h1 : ∀ k ∈ accentTable.map Prod.fst, isPySpace k = false := by decide
      have h2v : ∀ v ∈ accentTable.map Prod.snd, isPySpace v = false := by decide
      rw [h1 _ hk2, h2v _ hv2]
  · unfold normChar
    have h1 : ∀ k ∈ lowerTable.map Prod.fst, isPySpace k = false := by decide
    have h2v : ∀ v ∈ lowerTable.map Prod.snd, isPySpace (stripMn v) = false := by
      decide
    rw [h1 _ hk, h2v _ hv]

theorem normChar_ne_nbsp (c : Char) (h : c ≠ nbspChar) : normChar c ≠ nbspChar := by
  rcases normChar_spec c with h2 | h2
  · rw [h2]; exact h
  · have : ∀ v ∈ normVals, v ≠ nbspChar := by decide
    exact this _ h2

theorem nbspToSpace_ne_nbsp (c : Char) : nbspToSpace c ≠ nbspChar := by
  unfold nbspToSpace
  split_ifs with h
  · decide
  · exact h

/-! Structure of collapsed and stripped text. -/

theorem mem_collapseAux {c : Char} :
    ∀ (l : List Char) (b : Bool), c ∈ collapseAux b l → c = ' ' ∨ c ∈ l := by
  intro l
  induction l with
  | nil => intro b h; simp [collapseAux] at h
  | cons d rest ih =>
    intro b h
    unfold collapseAux at h
    by_cases hd : isPySpace d
    · rw [if_pos hd] at h
      cases b with
      | true =>
        rw [if_pos rfl] at h
        rcases ih true h with h2 | h2
        · exact Or.inl h2
        · exact Or.inr (List.mem_cons_of_mem _ h2)
      | false =>
        rw [if_neg Bool.false_ne_true] at h
        rcases List.mem_cons.mp h with h2 | h2
        · exact Or.inl h2
        · rcases ih true h2 with h3 | h3
          · exact Or.inl h3
          · exact Or.inr (List.mem_cons_of_mem _ h3)
    · rw [if_neg hd] at h
      rcases List.mem_cons.mp h with h2 | h2
      · exact Or.inr (h2 ▸ List.mem_cons_self _ _)
      · rcases ih false h2 with h3 | h3
        · exact Or.inl h3
        · exact Or.inr (List.mem_cons_of_mem _ h3)

theorem collapseAux_collapsed :
    ∀ (l : List Char) (b : Bool),
      collapsedB (collapseAux b l) = true ∧
        (b = true → firstNotSpace (collapseAux b l) = true) := by
  intro l
  induction l with
  | nil => intro b; exact ⟨rfl, fun _ => rfl⟩
  | cons c rest ih =>
    intro b
    unfold collapseAux
    by_cases hc : isPySpace c
    · rw [if_pos hc]
      cases b with
      | true => simpa using ih true
      | false =>
        simp only [if_neg Bool.false_ne_true]
        constructor
        · have h1 := (ih true).1
          have h2 := (ih true).2 rfl
          unfold collapsedB
          simp [h1, h2, isPySpace]
        · intro h; cases h
    · rw [if_neg hc]
      constructor
      · unfold collapsedB
        simp [hc, (ih false).1]
      · intro _
        unfold firstNotSpace
        simp [hc]

theorem collapseAux_firstNotSpace (l : List Char) (b : Bool)
    (h : firstNotSpace l = true) : firstNotSpace (collapseAux b l) = true := by
  cases l with
  | nil => rfl
  | cons c rest =>
    unfold firstNotSpace at h
    unfold collapseAux
    rw [if_neg (by simpa using h)]
    unfold firstNotSpace
    exact h

theorem collapseAux_ne_nil :
    ∀ (l : List Char) (b : Bool), l ≠ [] → lastNotSpace l = true →
      collapseAux b l ≠ [] := by
  intro l
  induction l with
  | nil => intro b h; exact absurd rfl h
  | cons c rest ih =>
    intro b _ hlast
    unfold collapseAux
    by_cases hc : isPySpace c
    · rw [if_pos hc]
      cases rest with
      | nil => unfold lastNotSpace at hlast; simp [hc] at hlast
      | cons d rs =>
        have hlast2 : lastNotSpace (d :: rs) = true := hlast
        cases b with
        | true => simpa using ih true (by simp) hlast2
        | false => simp
    · rw [if_neg hc]; simp

theorem collapseAux_lastNotSpace :
    ∀ (l : List Char) (b : Bool), lastNotSpace l = true →
      lastNotSpace (collapseAux b l) = true := by
  intro l
  induction l with
  | nil => intro b _; rfl
  | cons c rest ih =>
    intro b hlast
    unfold collapseAux
    cases rest with
    | nil =>
      unfold lastNotSpace at hlast
      rw [if_neg (by simpa using hlast)]
      exact hlast
    | cons d rs =>
      have hlast2 : lastNotSpace (d :: rs) = true := hlast
      by_cases hc : isPySpace c
      · rw [if_pos hc]
        cases b with
        | true => simpa using ih true hlast2
        | false =>
          simp only [if_neg Bool.false_ne_true]
          have hne : collapseAux true (d :: rs) ≠ [] :=
            collapseAux_ne_nil (d :: rs) true (by simp) hlast2
          obtain ⟨y, ys, hy⟩ := List.exists_cons_of_ne_nil hne
          rw [hy]
          have := ih true hlast2
          rw [hy] at this
          exact this
      · rw [if_neg hc]
        have hne : collapseAux false (d :: rs) ≠ [] :=
          collapseAux_ne_nil (d :: rs) false (by simp) hlast2
        obtain ⟨y, ys, hy⟩ := List.exists_cons_of_ne_nil hne
        rw [hy]
        have := ih false hlast2
        rw [hy] at this
        exact this

theorem collapseAux_fixed :
    ∀ (t : List Char) (b : Bool), collapsedB t = true →
      (b = true → firstNotSpace t = true) → collapseAux b t = t := by
  intro t
  induction t with
  | nil => intro b _ _; rfl
  | cons c rest ih =>
    intro b hcol hfirst
    unfold collapsedB at hcol
    rw [Bool.and_eq_true] at hcol
    obtain ⟨hhead, htail⟩ := hcol
    unfold collapseAux
    by_cases hc : isPySpace c
    · rw [if_pos hc]
      cases b with
      | true =>
        have := hfirst rfl
        unfold firstNotSpace at this
        simp [hc] at this
      | false =>
        simp only [if_neg Bool.false_ne_true]
        simp only [hc, Bool.not_true, Bool.false_or, Bool.and_eq_true,
          beq_iff_eq] at hhead
        rw [ih true htail (fun _ => hhead.2), hhead.1]
    · rw [if_neg hc]
      rw [ih false htail (fun h => by cases h)]

/-! Stripping lemmas. -/

theorem firstNotSpace_dropWhile (l : List Char) :
    firstNotSpace (l.dropWhile isPySpace) = true := by
  induction l with
  | nil => rfl
  | cons c rest ih =>
    rw [List.dropWhile_cons]
    by_cases hc : isPySpace c
    · rw [if_pos hc]; exact ih
    · rw [if_neg hc]
      unfold firstNotSpace
      simp [hc]

theorem dropWhile_append_singleton {c : Char} (hc : isPySpace c = false) :
    ∀ A : List Char, (A ++ [c]).dropWhile isPySpace =
      A.dropWhile isPySpace ++ [c] := by
  intro A
  induction A with
  | nil => simp [List.dropWhile_cons, hc]
  | cons a A2 ih =>
    rw [List.cons_append, List.dropWhile_cons, List.dropWhile_cons]
    by_cases ha : isPySpace a
    · rw [if_pos ha, if_pos ha]; exact ih
    · rw [if_neg ha, if_neg ha, List.cons_append]

theorem lastNotSpace_append_singleton (c : Char) :
    ∀ A : List Char, lastNotSpace (A ++ [c]) = !isPySpace c := by
  intro A
  induction A with
  | nil => rfl
  | cons a A2 ih =>
    cases A2 with
    | nil => rfl
    | cons a2 A3 => simpa using ih

theorem lastNotSpace_reverse (l : List Char) :
    lastNotSpace l.reverse = firstNotSpace l := by
  cases l with
  | nil => rfl
  | cons c rest =>
    rw [List.reverse_cons, lastNotSpace_append_singleton]
    rfl

theorem firstNotSpace_dropTrailingWs (l : List Char)
    (h : firstNotSpace l = true) : firstNotSpace (dropTrailingWs l) = true := by
  cases l with
  | nil => rfl
  | cons c rest =>
    unfold firstNotSpace at h
    unfold dropTrailingWs
    rw [List.reverse_cons, dropWhile_append_singleton (by simpa using h),
      List.reverse_append]
    unfold firstNotSpace
    simpa using h

theorem lastNotSpace_dropTrailingWs (l : List Char) :
    lastNotSpace (dropTrailingWs l) = true := by
  unfold dropTrailingWs
  rw [lastNotSpace_reverse]
  exact firstNotSpace_dropWhile _

theorem firstNotSpace_pyStripL (l : List Char) :
    firstNotSpace (pyStripL l) = true :=
  firstNotSpace_dropTrailingWs _ (firstNotSpace_dropWhile l)

theorem lastNotSpace_pyStripL (l : List Char) :
    lastNotSpace (pyStripL l) = true :=
  lastNotSpace_dropTrailingWs _

theorem dropWhile_of_firstNotSpace {t : List Char}
    (h : firstNotSpace t = true) : t.dropWhile isPySpace = t := by
  cases t with
  | nil => rfl
  | cons c rest =>
    unfold firstNotSpace at h
    rw [List.dropWhile_cons, if_neg (by simpa using h)]

theorem dropTrailingWs_of_lastNotSpace {t : List Char}
    (h : lastNotSpace t = true) : dropTrailingWs t = t := by
  unfold dropTrailingWs
  have h2 : firstNotSpace t.reverse = true := by
    have := lastNotSpace_reverse t.reverse
    rw [List.reverse_reverse] at this
    rw [← this]
    exact h
  rw [dropWhile_of_firstNotSpace h2, List.reverse_reverse]

theorem pyStripL_of_not_space {t : List Char} (h1 : firstNotSpace t = true)
    (h2 : lastNotSpace t = true) : pyStripL t = t := by
  unfold pyStripL dropLeadingWs
  rw [dropWhile_of_firstNotSpace h1, dropTrailingWs_of_lastNotSpace h2]

/-! Map lemmas. -/

theorem map_eq_self_of_fixed {α : Type} {f : α → α} :
    ∀ l : List α, (∀ c ∈ l, f c = c) → l.map f = l := by
  intro l
  induction l with
  | nil => intro _; rfl
  | cons c rest ih =>
    intro h
    rw [List.map_cons, h c (List.mem_cons_self _ _),
      ih (fun x hx => h x (List.mem_cons_of_mem _ hx))]

theorem lastNotSpace_cons_cons (a b : Char) (t : List Char) :
    lastNotSpace (a :: b :: t) = lastNotSpace (b :: t) := rfl

theorem firstNotSpace_map_normChar (l : List Char) :
    firstNotSpace (l.map normChar) = firstNotSpace l := by
  cases l with
  | nil => rfl
  | cons c rest =>
    show (!isPySpace (normChar c)) = (!isPySpace c)
    rw [isPySpace_normChar]

theorem lastNotSpace_map_normChar :
    ∀ l : List Char, lastNotSpace (l.map normChar) = lastNotSpace l := by
  intro l
  induction l with
  | nil => rfl
  | cons c rest ih =>
    cases rest with
    | nil =>
      unfold lastNotSpace
      simp [isPySpace_normChar]
    | cons d rs =>
      rw [List.map_cons, List.map_cons, lastNotSpace_cons_cons,
        lastNotSpace_cons_cons, ← List.map_cons]
      exact ih

/-! Membership plumbing through stripping. -/

theorem mem_of_mem_dropWhile {c : Char} :
    ∀ l : List Char, c ∈ l.dropWhile isPySpace → c ∈ l := by
  intro l
  induction l with
  | nil => intro h; exact h
  | cons d rest ih =>
    intro h
    rw [List.dropWhile_cons] at h
    by_cases hd : isPySpace d
    · rw [if_pos hd] at h
      exact List.mem_cons_of_mem _ (ih h)
    · rw [if_neg hd] at h
      exact h

theorem mem_of_mem_pyStripL {c : Char} (l : List Char) (h : c ∈ pyStripL l) :
    c ∈ l := by
  unfold pyStripL dropTrailingWs dropLeadingWs at h
  rw [List.mem_reverse] at h
  have h2 := mem_of_mem_dropWhile _ h
  rw [List.mem_reverse] at h2
  exact mem_of_mem_dropWhile _ h2

/-! The shape of normalized text, and idempotence of norm. -/

theorem normL_facts (l : List Char) :
    (∀ c ∈ normL l, c ≠ nbspChar ∧ normChar c = c) ∧
      firstNotSpace (normL l) = true ∧ lastNotSpace (normL l) = true ∧
      collapsedB (normL l) = true := by
  unfold normL
  refine ⟨?_, ?_, ?_, (collapseAux_collapsed _ _).1⟩
  · intro c hc
    rcases mem_collapseAux _ _ hc with h | h
    · subst h
      constructor
      · decide
      · decide
    · rcases List.mem_map.mp h with ⟨x, hx, hfx⟩
      have hxl : x ∈ (l.map nbspToSpace) := mem_of_mem_pyStripL _ hx
      rcases List.mem_map.mp hxl with ⟨y, _, hy⟩
      constructor
      · rw [← hfx]
        exact normChar_ne_nbsp x (hy ▸ nbspToSpace_ne_nbsp y)
      · rw [← hfx]
        exact normChar_idem x
  · exact collapseAux_firstNotSpace _ _
      (by rw [firstNotSpace_map_normChar]; exact firstNotSpace_pyStripL _)
  · exact collapseAux_lastNotSpace _ _
      (by rw [lastNotSpace_map_normChar]; exact lastNotSpace_pyStripL _)

theorem normL_idem (l : List Char) : normL (normL l) = normL l := by
  obtain ⟨hmem, hfirst, hlast, hcol⟩ := normL_facts l
  conv_lhs => rw [normL]
  rw [map_eq_self_of_fixed (normL l) (fun c hc => by
    unfold nbspToSpace
    rw [if_neg (hmem c hc).1])]
  rw [pyStripL_of_not_space hfirst hlast]
  rw [map_eq_self_of_fixed (normL l) (fun c hc => (hmem c hc).2)]
  exact collapseAux_fixed _ _ hcol (fun h => by cases h)

/-- C9: the text normalizer is a pure total function (it is a Lean
function, defined on every string, and maps a missing value to the empty
string), and it is idempotent: normalizing twice equals normalizing
once. -/
theorem text_normalizer_idempotent :
    (∀ s : String, norm (norm s) = norm s) ∧ normOpt none = "" ∧
      (∀ s : String, normOpt (some s) = norm s) := by
  refine ⟨?_, rfl, fun _ => rfl⟩
  intro s
  show (⟨normL (norm s).data⟩ : String) = (⟨normL s.data⟩ : String)
  have hdata : (norm s).data = normL s.data := rfl
  rw [hdata, normL_idem]

/-! Header locator lemmas (C1). -/

theorem findHeaderIdxAux_spec :
    ∀ (l : List (List String)) (i j : Nat), findHeaderIdxAux i l = some j →
      i ≤ j ∧ j - i < l.length ∧ isHeaderRow (l.getD (j - i) []) = true ∧
        ∀ m, m < j - i → isHeaderRow (l.getD m []) = false := by
  intro l
  induction l with
  | nil => intro i j h; cases h
  | cons r rest ih =>
    intro i j h
    unfold findHeaderIdxAux at h
    by_cases hr : isHeaderRow r = true
    · rw [if_pos hr] at h
      have hij : i = j := Option.some.inj h
      subst hij
      refine ⟨Nat.le_refl i, by simp, ?_, ?_⟩
      · rw [Nat.sub_self]
        simpa [List.getD] using hr
      · intro m hm
        rw [Nat.sub_self] at hm
        exact absurd hm (Nat.not_lt_zero m)
    · rw [if_neg hr] at h
      obtain ⟨h1, h2, h3, h4⟩ := ih (i + 1) j h
      have he : j - i = (j - (i + 1)) + 1 := by omega
      refine ⟨by omega, by simp; omega, ?_, ?_⟩
      · rw [he]
        simpa [List.getD] using h3
      · intro m hm
        cases m with
        | zero =>
          simpa [List.getD] using (Bool.not_eq_true _).mp hr
        | succ m2 =>
          have : m2 < j - (i + 1) := by omega
          simpa [List.getD] using h4 m2 this

theorem getD_take_of_lt {α : Type} (l : List α) (n m : Nat) (d : α) (h : m < n) :
    (l.take n).getD m d = l.getD m d := by
  rw [List.getD_eq_getElem?_getD, List.getD_eq_getElem?_getD,
    List.getElem?_take_of_lt h]

/-- C1: when the header-detected load path succeeds, the returned index is
within the 50-row scan window, the row there carries both the program
marker and a year marker, every earlier row fails that test, and the data
rows of the produced frame are exactly the raw rows strictly after the
header row. -/
theorem header_locator_correct (raw : List (List String)) (fr : Frame) (i : Nat)
    (h : loadFromRaw raw = some (fr, i)) :
    i < min raw.length 50 ∧
      rowHasProgram (raw.getD i []) = true ∧ rowHasYear (raw.getD i []) = true ∧
      (∀ j, j < i →
        (rowHasProgram (raw.getD j []) && rowHasYear (raw.getD j [])) = false) ∧
      fr.rows = raw.drop (i + 1) ∧ fr.rows.length = raw.length - (i + 1) := by
  unfold loadFromRaw at h
  cases hf : findHeaderIdx raw with
  | none => rw [hf] at h; cases h
  | some k =>
    rw [hf] at h
    have h2 := Option.some.inj h
    have hfr : fr = ⟨((raw.drop k).headD []).map cleanHeaderCell,
        raw.drop (k + 1)⟩ := (congrArg Prod.fst h2).symm
    have hik : k = i := congrArg Prod.snd h2
    subst hik
    unfold findHeaderIdx at hf
    obtain ⟨_, hlt, hhd, hmin⟩ := findHeaderIdxAux_spec _ 0 k hf
    rw [Nat.sub_zero] at hlt hhd
    have hlen : (raw.take 50).length = min 50 raw.length := List.length_take 50 raw
    have hk50 : k < 50 := by omega
    have hkmin : k < min raw.length 50 := by omega
    rw [getD_take_of_lt _ _ _ _ hk50] at hhd
    unfold isHeaderRow at hhd
    refine ⟨hkmin, ?_, ?_, ?_, ?_, ?_⟩
    · exact ((Bool.and_eq_true _ _).mp hhd).1
    · exact ((Bool.and_eq_true _ _).mp hhd).2
    · intro j hj
      have hj50 : j < 50 := by omega
      have hmj := hmin j (by omega)
      unfold isHeaderRow at hmj
      rw [getD_take_of_lt raw 50 j [] hj50] at hmj
      exact hmj
    · rw [hfr]
    · rw [hfr]
      exact List.length_drop (k + 1) raw

/-- C1 witness: on a 60-row raw table whose first marker row has index 2,
the locator returns index 2 and the frame holds the 57 rows after it. -/
theorem header_locator_correct_witness :
    (2 : Nat) < min raw60.length 50 ∧ frame60.rows = raw60.drop 3 ∧
      frame60.rows.length = 57 ∧ raw60.length = 60 := by
  have h := header_locator_correct raw60 frame60 2 (by decide)
  exact ⟨h.1, h.2.2.2.2.1, by decide, by decide⟩

/-! Column classifier (C2). -/

theorem detectProgYearAux_eq :
    ∀ (l : List String) (p y : Option String),
      detectProgYearAux p y l =
        (orElseO p (l.find? progMatchB), orElseO y (l.find? yearMatchB)) := by
  intro l
  induction l with
  | nil => intro p y; cases p <;> cases y <;> rfl
  | cons c rest ih =>
    intro p y
    unfold detectProgYearAux
    rw [ih]
    cases p <;> cases y <;>
      by_cases hc : progMatchB c <;> by_cases hy : yearMatchB c <;>
        simp [hc, hy, List.find?_cons, orElseO]

/-- C2 amended: the classifier returns, for each role, the first column
(in column order) whose normalized name matches that role's patterns, and
fails with the full ordered column list when either role has no match.  A
column matching both pattern sets is assigned to both roles, because the
program check and the year check run independently for every column. -/
theorem column_classifier_correct (cols : List String) :
    detectProgramYearCols cols =
      match cols.find? progMatchB, cols.find? yearMatchB with
      | some p, some y => Except.ok (p, y)
      | some _, none => Except.error cols
      | none, _ => Except.error cols := by
  unfold detectProgramYearCols
  rw [detectProgYearAux_eq]
  simp only [orElseO]
  cases cols.find? progMatchB <;> cases cols.find? yearMatchB <;> rfl

/-- C2 counterexample: a single column whose normalized name contains both
the program pattern and a year pattern is assigned to both roles, so the
classifier does not keep the roles disjoint. -/
theorem column_both_roles_cex :
    detectProgramYearCols ["Programa año de egreso"] =
      Except.ok ("Programa año de egreso", "Programa año de egreso") ∧
    progMatchB "Programa año de egreso" = true ∧
    yearMatchB "Programa año de egreso" = true := by
  refine ⟨?_, by decide, by decide⟩
  rfl

/-! Benefits bucketing (C5). -/

/-- C5: the bucketing rules of normalize_beneficios fire in order with
first match winning: the no-knowledge phrasing maps to the no-benefits
bucket, a text containing descuento maps to the economic-benefits bucket,
an unmatched text is returned verbatim trimmed, empty and blank input
map to the empty string, and any text whose normalization contains the
no-knowledge phrase lands in the first bucket regardless of later rules. -/
theorem beneficios_bucketing_correct :
    normalizeBeneficios "No tengo conocimiento" =
      "Ninguno / no conoce beneficios" ∧
    normalizeBeneficios "Quiero descuentos en matrícula" =
      "Descuentos y beneficios económicos" ∧
    normalizeBeneficios "Algo totalmente distinto" = "Algo totalmente distinto" ∧
    normalizeBeneficios "" = "" ∧
    normalizeBeneficios "   " = "" ∧
    (∀ s : String, hasSubS "no tengo conocimiento" (norm s) = true →
      normalizeBeneficios s = "Ninguno / no conoce beneficios") := by
  refine ⟨by decide, by decide, by decide, by decide, by decide, ?_⟩
  intro s h
  have ht : ¬(norm s = "") := by
    intro he
    rw [he] at h
    exact absurd h (by decide)
  simp only [normalizeBeneficios]
  rw [if_neg ht, if_pos (by simp [h])]

/-- C5 witness: the priority conjunct applied to a text that also contains
words matched by later rules. -/
theorem beneficios_bucketing_witness :
    normalizeBeneficios "No tengo conocimiento de descuentos" =
      "Ninguno / no conoce beneficios" :=
  beneficios_bucketing_correct.2.2.2.2.2
    "No tengo conocimiento de descuentos" (by decide)

/-! Counting machinery (pandas value_counts), shared by C3, C4 and C10. -/

theorem bump_sum (acc : List (String × Nat)) (v : String) :
    ((bump acc v).map Prod.snd).sum = (acc.map Prod.snd).sum + 1 := by
  induction acc with
  | nil => rfl
  | cons p rest ih =>
    obtain ⟨k, n⟩ := p
    unfold bump
    by_cases hk : k = v
    · rw [if_pos hk]
      simp
      omega
    · rw [if_neg hk]
      simp [ih]
      omega

theorem bump_keys_mem (acc : List (String × Nat)) (v k : String) :
    (k ∈ (bump acc v).map Prod.fst ↔ k ∈ acc.map Prod.fst ∨ k = v) := by
  induction acc with
  | nil => simp [bump]
  | cons p rest ih =>
    obtain ⟨k2, n⟩ := p
    unfold bump
    by_cases hk : k2 = v
    · rw [if_pos hk]
      subst hk
      simp
      tauto
    · rw [if_neg hk]
      simp [ih]
      tauto

theorem bump_keys (acc : List (String × Nat)) (v : String) :
    (bump acc v).map Prod.fst =
      if v ∈ acc.map Prod.fst then acc.map Prod.fst
      else acc.map Prod.fst ++ [v] := by
  induction acc with
  | nil => simp [bump]
  | cons p rest ih =>
    obtain ⟨k, n⟩ := p
    unfold bump
    by_cases hk : k = v
    · rw [if_pos hk]
      subst hk
      simp
    · rw [if_neg hk]
      by_cases hm : v ∈ rest.map Prod.fst
      · simp [hm, ih, Ne.symm hk]
      · simp [hm, ih, Ne.symm hk]

theorem bump_keyCount (acc : List (String × Nat)) (v k : String) :
    keyCount (bump acc v) k = keyCount acc k + (if k = v then 1 else 0) := by
  induction acc with
  | nil =>
    unfold bump keyCount
    by_cases h : k = v
    · simp [h]
    · simp [h, show ¬(v = k) from fun he => h he.symm]
  | cons p rest ih =>
    obtain ⟨k2, n⟩ := p
    unfold bump
    by_cases h2 : k2 = v
    · rw [if_pos h2]
      subst h2
      unfold keyCount
      by_cases h3 : k2 = k
      · simp [h3, List.filter_cons]
        omega
      · simp [List.filter_cons, fun he : k2 = k => h3 he, h3]
        have : ¬(k = k2) := fun he => h3 he.symm
        simp [this]
    · rw [if_neg h2]
      unfold keyCount at ih ⊢
      by_cases h3 : k2 = k
      · simp [List.filter_cons, h3, ih]
        omega
      · simp [List.filter_cons, h3, ih]

theorem bump_keys_nodup (acc : List (String × Nat)) (v : String)
    (h : (acc.map Prod.fst).Nodup) : ((bump acc v).map Prod.fst).Nodup := by
  rw [bump_keys]
  by_cases hm : v ∈ acc.map Prod.fst
  · rwa [if_pos hm]
  · rw [if_neg hm]
    simp [List.nodup_append, h, hm]

theorem foldl_bump_sum :
    ∀ (l : List String) (acc : List (String × Nat)),
      ((l.foldl bump acc).map Prod.snd).sum = (acc.map Prod.snd).sum + l.length := by
  intro l
  induction l with
  | nil => intro acc; simp
  | cons v rest ih =>
    intro acc
    rw [List.foldl_cons, ih, bump_sum]
    simp
    omega

theorem foldl_bump_keyCount :
    ∀ (l : List String) (acc : List (String × Nat)) (k : String),
      keyCount (l.foldl bump acc) k = keyCount acc k + l.count k := by
  intro l
  induction l with
  | nil => intro acc k; simp
  | cons v rest ih =>
    intro acc k
    rw [List.foldl_cons, ih, bump_keyCount, List.count_cons]
    by_cases h : k = v
    · simp [h]
      omega
    · have hb : ¬((k == v) = true) := by simpa using h
      simp [h, hb]
      exact fun he => h he.symm

theorem foldl_bump_keys_mem :
    ∀ (l : List String) (acc : List (String × Nat)) (k : String),
      (k ∈ (l.foldl bump acc).map Prod.fst ↔ k ∈ acc.map Prod.fst ∨ k ∈ l) := by
  intro l
  induction l with
  | nil => intro acc k; simp
  | cons v rest ih =>
    intro acc k
    rw [List.foldl_cons, ih, bump_keys_mem]
    simp
    tauto

theorem foldl_bump_nodup :
    ∀ (l : List String) (acc : List (String × Nat)),
      (acc.map Prod.fst).Nodup → ((l.foldl bump acc).map Prod.fst).Nodup := by
  intro l
  induction l with
  | nil => intro acc h; exact h
  | cons v rest ih =>
    intro acc h
    rw [List.foldl_cons]
    exact ih _ (bump_keys_nodup _ _ h)

theorem tally_sum (l : List String) : ((tally l).map Prod.snd).sum = l.length := by
  unfold tally
  rw [foldl_bump_sum]
  simp

theorem tally_keyCount (l : List String) (k : String) :
    keyCount (tally l) k = l.count k := by
  unfold tally
  rw [foldl_bump_keyCount]
  simp [keyCount]

theorem tally_keys_mem (l : List String) (k : String) :
    k ∈ (tally l).map Prod.fst ↔ k ∈ l := by
  unfold tally
  rw [foldl_bump_keys_mem]
  simp

theorem tally_nodup (l : List String) : ((tally l).map Prod.fst).Nodup := by
  unfold tally
  exact foldl_bump_nodup l [] (by simp)

theorem keyCount_eq_zero_of_not_mem (al : List (String × Nat)) (k : String)
    (h : k ∉ al.map Prod.fst) : keyCount al k = 0 := by
  induction al with
  | nil => rfl
  | cons p rest ih =>
    obtain ⟨k2, n⟩ := p
    simp at h
    unfold keyCount
    rw [List.filter_cons]
    have : ¬(k2 = k) := fun he => h.1 he.symm
    simp [this]
    have := ih (by simp; exact h.2)
    unfold keyCount at this
    simpa using this

theorem keyCount_of_mem_nodup :
    ∀ (al : List (String × Nat)), (al.map Prod.fst).Nodup →
      ∀ k n, (k, n) ∈ al → keyCount al k = n := by
  intro al
  induction al with
  | nil => intro _ k n h; cases h
  | cons p rest ih =>
    obtain ⟨k2, n2⟩ := p
    intro hnd k n h
    rw [List.map_cons, List.nodup_cons] at hnd
    rcases List.mem_cons.mp h with h2 | h2
    · have hk : k2 = k := (congrArg Prod.fst h2).symm
      have hn : n2 = n := (congrArg Prod.snd h2).symm
      subst hk
      subst hn
      unfold keyCount
      rw [List.filter_cons]
      simp
      have : keyCount rest k2 = 0 := keyCount_eq_zero_of_not_mem _ _ hnd.1
      unfold keyCount at this
      simpa using this
    · have hkk : ¬(k2 = k) := by
        intro he
        refine hnd.1 ?_
        rw [he]
        exact List.mem_map.mpr ⟨(k, n), h2, rfl⟩
      unfold keyCount
      rw [List.filter_cons]
      simp [hkk]
      have h3 := ih hnd.2 k n h2
      unfold keyCount at h3
      exact h3

theorem exists_entry_of_mem_keys (al : List (String × Nat)) (k : String)
    (h : k ∈ al.map Prod.fst) : ∃ n, (k, n) ∈ al := by
  rcases List.mem_map.mp h with ⟨p, hp, hfst⟩
  exact ⟨p.2, by rwa [show (k, p.2) = p from Prod.ext hfst.symm rfl]⟩

theorem tally_count_mem (l : List String) (k : String) (h : k ∈ l) :
    (k, l.count k) ∈ tally l := by
  obtain ⟨n, hn⟩ := exists_entry_of_mem_keys (tally l) k ((tally_keys_mem l k).mpr h)
  have h2 := keyCount_of_mem_nodup (tally l) (tally_nodup l) k n hn
  rw [tally_keyCount] at h2
  rw [← h2] at hn
  exact hn

theorem tally_fst_mem (l : List String) {k : String} {n : Nat}
    (h : (k, n) ∈ tally l) : k ∈ l :=
  (tally_keys_mem l k).mp (List.mem_map_of_mem Prod.fst h)

/-! Sorting machinery. -/

theorem insertBy_perm {α : Type} (le : α → α → Bool) (a : α) :
    ∀ l : List α, (insertBy le a l).Perm (a :: l) := by
  intro l
  induction l with
  | nil => exact List.Perm.refl _
  | cons b rest ih =>
    unfold insertBy
    by_cases h : le a b
    · rw [if_pos h]
    · rw [if_neg h]
      exact (ih.cons b).trans (List.Perm.swap a b rest)

theorem sortBy_perm {α : Type} (le : α → α → Bool) :
    ∀ l : List α, (sortBy le l).Perm l := by
  intro l
  induction l with
  | nil => exact List.Perm.refl _
  | cons c rest ih =>
    unfold sortBy at ih ⊢
    rw [List.foldr_cons]
    exact (insertBy_perm le c _).trans (ih.cons c)

theorem valueCounts_sum (l : List String) :
    ((valueCounts l).map Prod.snd).sum = l.length := by
  unfold valueCounts
  rw [List.Perm.sum_eq ((sortBy_perm countDescLt (tally l)).map Prod.snd)]
  exact tally_sum l

theorem valueCounts_mem_iff (l : List String) (p : String × Nat) :
    p ∈ valueCounts l ↔ p ∈ tally l :=
  (sortBy_perm countDescLt (tally l)).mem_iff

/-! Binary aggregator (C4). -/

/-- C4: whenever chart_binary produces a distribution, every label is the
canonical yes, the canonical no, or one of the trimmed non-missing input
values verbatim, and the counts sum to the number of non-missing input
values. -/
theorem binary_chart_correct (cells : List (Option String))
    (dist : List (String × Nat)) (h : chartBinary cells = some dist) :
    (∀ p ∈ dist,
      p.1 = "Sí" ∨ p.1 = "No" ∨ p.1 ∈ (cells.filterMap id).map pyStripS) ∧
    (dist.map Prod.snd).sum = (cells.filterMap id).length := by
  simp only [chartBinary] at h
  by_cases he : (((cells.filterMap id).map pyStripS)).isEmpty
  · rw [if_pos he] at h
    cases h
  · rw [if_neg he] at h
    have hd : dist = valueCounts (((cells.filterMap id).map pyStripS).map mapBinary) :=
      (Option.some.inj h).symm
    subst hd
    constructor
    · intro p hp
      have hp2 := (valueCounts_mem_iff _ _).mp hp
      have hk : p.1 ∈ ((cells.filterMap id).map pyStripS).map mapBinary :=
        (tally_keys_mem _ _).mp (List.mem_map_of_mem Prod.fst hp2)
      obtain ⟨v, hv, hmv⟩ := List.mem_map.mp hk
      unfold mapBinary at hmv
      by_cases h1 : yesMatch v
      · left
        rw [← hmv, if_pos h1]
      · by_cases h2 : noMatch v
        · right; left
          rw [← hmv, if_neg h1, if_pos h2]
        · right; right
          rw [← hmv, if_neg h1, if_neg h2]
          exact hv
    · rw [valueCounts_sum]
      simp

/-- C4 witness: a concrete binary column with canonical, cased and
free-text answers. -/
theorem binary_chart_correct_witness :
    chartBinary binCells = some [("Sí", 2), ("No", 1), ("tal vez", 1)] ∧
    ([("Sí", 2), ("No", 1), ("tal vez", 1)].map Prod.snd).sum = 4 ∧
    (binCells.filterMap id).length = 4 := by
  have h := binary_chart_correct binCells [("Sí", 2), ("No", 1), ("tal vez", 1)]
    (by decide)
  exact ⟨by decide, h.2.trans (by decide), by decide⟩

/-! Empty-cell handling (C10). -/

theorem map_some_filterMap_id {α : Type} (l : List α) :
    (l.map some).filterMap id = l := by
  induction l with
  | nil => rfl
  | cons a rest ih => simp [ih]

theorem mapBinary_eq_empty (v : String) : mapBinary v = "" ↔ v = "" := by
  unfold mapBinary
  by_cases h1 : yesMatch v
  · rw [if_pos h1]
    constructor
    · intro he
      exact absurd he (by decide)
    · intro he
      rw [he] at h1
      exact absurd h1 (by decide)
  · rw [if_neg h1]
    by_cases h2 : noMatch v
    · rw [if_pos h2]
      constructor
      · intro he
        exact absurd he (by decide)
      · intro he
        rw [he] at h2
        exact absurd h2 (by decide)
    · rw [if_neg h2]

theorem count_map_mapBinary_empty :
    ∀ l : List String, (l.map mapBinary).count "" = l.count "" := by
  intro l
  induction l with
  | nil => rfl
  | cons v rest ih =>
    rw [List.map_cons, List.count_cons, List.count_cons, ih]
    congr 1
    by_cases hv : v = ""
    · rw [hv]
      rfl
    · have h1 : ¬(mapBinary v = "") := fun he => hv ((mapBinary_eq_empty v).mp he)
      rw [if_neg (by simp only [beq_iff_eq]; exact h1),
        if_neg (by simp only [beq_iff_eq]; exact hv)]

theorem valueCounts_length_eq (l : List String) :
    (valueCounts l).length = (tally l).length :=
  (sortBy_perm countDescLt (tally l)).length_eq

/-- C10: empty CSV cells on the header-detected path are plain empty
strings, so they survive the missing-value drop (lifting string cells into
the optional-cell view and dropping missing values is the identity), and
both the binary and the categorical aggregator count the empty string as
its own category with the full count of empty cells. -/
theorem empty_cells_survive (cells : List String) (col : String) (k : Nat)
    (hcol : ¬(pyStripS col = beneficiosCol))
    (hk : (tally (cells.map pyStripS)).length ≤ k)
    (hne : "" ∈ cells.map pyStripS) :
    ((cells.map some).filterMap id = cells) ∧
    (∃ dist, chartBinary (cells.map some) = some dist ∧
      ("", (cells.map pyStripS).count "") ∈ dist ∧
      0 < (cells.map pyStripS).count "") ∧
    (∃ dist, chartCategorical col (cells.map some) k = some dist ∧
      ("", (cells.map pyStripS).count "") ∈ dist) := by
  have hfm : (cells.map some).filterMap id = cells := map_some_filterMap_id cells
  have hnil : cells.map pyStripS ≠ [] := List.ne_nil_of_mem hne
  have hie : (cells.map pyStripS).isEmpty = false := by
    simp [List.isEmpty_iff, hnil]
  refine ⟨hfm, ?_, ?_⟩
  · refine ⟨valueCounts ((cells.map pyStripS).map mapBinary), ?_, ?_, ?_⟩
    · simp only [chartBinary, hfm, hie]
      rfl
    · have hmem : "" ∈ (cells.map pyStripS).map mapBinary :=
        List.mem_map.mpr ⟨"", hne, by decide⟩
      have h2 := tally_count_mem _ _ hmem
      rw [count_map_mapBinary_empty] at h2
      exact (valueCounts_mem_iff _ _).mpr h2
    · exact List.count_pos_iff.mpr hne
  · refine ⟨valueCounts (cells.map pyStripS), ?_, ?_⟩
    · simp only [chartCategorical, hfm, hie, if_neg hcol]
      rw [if_neg (fun h : false = true => by cases h)]
      rw [List.take_of_length_le
        (le_trans (le_of_eq (valueCounts_length_eq _)) hk)]
    · exact (valueCounts_mem_iff _ _).mpr (tally_count_mem _ _ hne)

/-- C10 witness: a column with two empty cells and one non-empty cell. -/
theorem empty_cells_survive_witness :
    ((c10Cells.map some).filterMap id = c10Cells) ∧
    chartBinary (c10Cells.map some) = some [("", 2), ("a", 1)] ∧
    chartCategorical "X" (c10Cells.map some) 10 = some [("", 2), ("a", 1)] ∧
    (c10Cells.map pyStripS).count "" = 2 := by
  have h := empty_cells_survive c10Cells "X" 10 (by decide) (by decide) (by decide)
  exact ⟨h.1, by decide, by decide, by decide⟩

/-! Likert aggregator (C3). -/

theorem qNeg_eq (q : ℚ) : qNeg q = -q := by
  unfold qNeg
  rw [Rat.mkRat_eq_div]
  push_cast
  rw [neg_div, Rat.num_div_den]

theorem qAdd_eq (a b : ℚ) : qAdd a b = a + b := by
  unfold qAdd
  have ha : ((a.den : ℚ)) ≠ 0 := Nat.cast_ne_zero.mpr (Rat.den_ne_zero a)
  have hb : ((b.den : ℚ)) ≠ 0 := Nat.cast_ne_zero.mpr (Rat.den_ne_zero b)
  rw [Rat.mkRat_eq_div]
  push_cast
  conv_rhs => rw [← Rat.num_div_den a, ← Rat.num_div_den b]
  rw [div_add_div _ _ ha hb]
  ring_nf

theorem qSum_eq : ∀ l : List ℚ, qSum l = l.sum := by
  intro l
  induction l with
  | nil => simp [qSum, Rat.mkRat_eq_div]
  | cons a rest ih =>
    have : qSum (a :: rest) = qAdd a (qSum rest) := rfl
    rw [this, qAdd_eq, ih, List.sum_cons]

theorem qDiv_eq (a b : ℚ) : qDiv a b = a / b := by
  unfold qDiv
  by_cases hb : b = 0
  · subst hb
    simp [Rat.divInt_eq_div]
  · have hbn : b.num ≠ 0 := Rat.num_ne_zero.mpr hb
    have ha : ((a.den : ℚ)) ≠ 0 := Nat.cast_ne_zero.mpr (Rat.den_ne_zero a)
    have hbd : ((b.den : ℚ)) ≠ 0 := Nat.cast_ne_zero.mpr (Rat.den_ne_zero b)
    have hbnq : ((b.num : ℚ)) ≠ 0 := Int.cast_ne_zero.mpr hbn
    rw [Rat.divInt_eq_div]
    push_cast
    conv_rhs => rw [← Rat.num_div_den a, ← Rat.num_div_den b]
    field_simp

theorem mkRat_nat_one (n : ℕ) : mkRat (n : ℤ) 1 = (n : ℚ) := by
  rw [Rat.mkRat_eq_div]
  push_cast
  rw [div_one]

theorem map_snd_buckets (f : ℤ → Nat) :
    (((([1, 2, 3, 4, 5] : List ℤ).map (fun k => (k, f k))).map Prod.snd)).sum =
      f 1 + (f 2 + (f 3 + (f 4 + (f 5 + 0)))) := rfl

theorem count_buckets (r : List ℤ) :
    r.count 1 + r.count 2 + r.count 3 + r.count 4 + r.count 5 =
      r.countP (fun z => decide (1 ≤ z ∧ z ≤ 5)) := by
  induction r with
  | nil => rfl
  | cons x rest ih =>
    simp only [List.count_cons, List.countP_cons, beq_iff_eq, decide_eq_true_eq]
    split_ifs <;> omega

/-- C3 amended: whenever chart_likert renders a chart, the distribution is
exactly the five buckets one to five in ascending order, each holding the
count of parsed values rounding to that bucket; the counts sum to the
number of parsed values whose rounded value lies in one to five (hence at
most the number of parsed values); the exposed mean is the arithmetic mean
of the unrounded parsed values; and the distinct cannot-interpret signal is
produced exactly when there are non-missing values but none parses. -/
theorem likert_chart_correct (cells : List (Option String)) :
    (∀ (dist : List (ℤ × Nat)) (mean : ℚ),
      chartLikert cells = LikertResult.chart dist mean →
      dist = ([1, 2, 3, 4, 5] : List ℤ).map
          (fun k =>
            (k, (((cells.filterMap id).filterMap pyFloat?).map roundHalfEven).count k)) ∧
      dist.map Prod.fst = ([1, 2, 3, 4, 5] : List ℤ) ∧
      (dist.map Prod.snd).sum =
        (((cells.filterMap id).filterMap pyFloat?).map roundHalfEven).countP
          (fun z => decide (1 ≤ z ∧ z ≤ 5)) ∧
      (dist.map Prod.snd).sum ≤ ((cells.filterMap id).filterMap pyFloat?).length ∧
      mean = ((cells.filterMap id).filterMap pyFloat?).sum /
        (((cells.filterMap id).filterMap pyFloat?).length : ℚ)) ∧
    (chartLikert cells = LikertResult.cantInterpret ↔
      (cells.filterMap id ≠ [] ∧ (cells.filterMap id).filterMap pyFloat? = [])) := by
  simp only [chartLikert]
  by_cases h1 : (cells.filterMap id).isEmpty
  · rw [if_pos h1]
    constructor
    · intro dist mean h
      cases h
    · constructor
      · intro h
        cases h
      · intro ⟨hne, _⟩
        exact absurd (List.isEmpty_iff.mp h1) hne
  · rw [if_neg h1]
    by_cases h2 : ((cells.filterMap id).filterMap pyFloat?).isEmpty
    · rw [if_pos h2]
      constructor
      · intro dist mean h
        cases h
      · refine iff_of_true rfl ⟨?_, List.isEmpty_iff.mp h2⟩
        intro he
        rw [he] at h1
        exact h1 rfl
    · rw [if_neg h2]
      constructor
      · intro dist mean h
        have hinj := LikertResult.chart.inj h
        obtain ⟨hd, hm⟩ := hinj
        subst hd
        refine ⟨rfl, by simp, ?_, ?_, ?_⟩
        · have hb := count_buckets
            (((cells.filterMap id).filterMap pyFloat?).map roundHalfEven)
          rw [map_snd_buckets]
          omega
        · have hb := count_buckets
            (((cells.filterMap id).filterMap pyFloat?).map roundHalfEven)
          have hle := List.countP_le_length
            (l := ((cells.filterMap id).filterMap pyFloat?).map roundHalfEven)
            (fun z => decide (1 ≤ z ∧ z ≤ 5))
          rw [map_snd_buckets]
          rw [List.length_map] at hle
          omega
        · rw [← hm, qDiv_eq, qSum_eq, mkRat_nat_one]
      · refine iff_of_false (by simp) ?_
        intro ⟨_, hnum⟩
        rw [hnum] at h2
        exact h2 rfl

/-- C3 counterexample: a parsed value rounding outside one to five is
silently dropped by the reindex, so the counts sum to zero while one value
parsed successfully. -/
theorem likert_out_of_range_cex :
    chartLikert [some "7"] =
      LikertResult.chart [(1, 0), (2, 0), (3, 0), (4, 0), (5, 0)] (mkRat 7 1) ∧
    (([some "7"].filterMap id).filterMap pyFloat?).length = 1 ∧
    ([((1 : ℤ), (0 : Nat)), (2, 0), (3, 0), (4, 0), (5, 0)].map Prod.snd).sum = 0 := by
  refine ⟨by decide, by decide, by decide⟩

/-- C3 witness: a column with a decimal-comma value, a missing value, an
unparseable value and an integer; plus the cannot-interpret signal on a
column where nothing parses. -/
theorem likert_chart_correct_witness :
    chartLikert likertCells =
      LikertResult.chart [(1, 0), (2, 1), (3, 0), (4, 1), (5, 0)] (mkRat 13 4) ∧
    ([((1 : ℤ), (0 : Nat)), (2, 1), (3, 0), (4, 1), (5, 0)].map Prod.snd).sum = 2 ∧
    chartLikert [some "x"] = LikertResult.cantInterpret := by
  obtain ⟨hchart, _⟩ := likert_chart_correct likertCells
  have hd := hchart [(1, 0), (2, 1), (3, 0), (4, 1), (5, 0)] (mkRat 13 4) (by decide)
  refine ⟨by decide, hd.2.2.1.trans (by decide), ?_⟩
  exact (likert_chart_correct [some "x"]).2.mpr ⟨by decide, by decide⟩

/-! Filter engine (C6). -/

theorem mem_dedupFirstAux :
    ∀ (l : List String) (seen : List String) (a : String),
      a ∈ dedupFirstAux seen l → a ∈ l := by
  intro l
  induction l with
  | nil => intro seen a h; cases h
  | cons v rest ih =>
    intro seen a h
    unfold dedupFirstAux at h
    by_cases hs : seen.contains v
    · rw [if_pos hs] at h
      exact List.mem_cons_of_mem _ (ih seen a h)
    · rw [if_neg hs] at h
      rcases List.mem_cons.mp h with h2 | h2
      · exact h2 ▸ List.mem_cons_self _ _
      · exact List.mem_cons_of_mem _ (ih _ a h2)

theorem mem_dedupFirst (l : List String) (a : String) (h : a ∈ dedupFirst l) :
    a ∈ l := mem_dedupFirstAux l [] a h

theorem progClean_spec (v p : String) (h : progClean v = some p) :
    nullLikeVals.contains p = false ∧ p = pyStripS v := by
  unfold progClean at h
  by_cases hc : nullLikeVals.contains (pyStripS v) = true
  · rw [if_pos hc] at h
    cases h
  · rw [if_neg hc] at h
    have hp : pyStripS v = p := Option.some.inj h
    constructor
    · rw [← hp]
      exact Bool.not_eq_true _ |>.mp hc
    · exact hp.symm

theorem mem_programasOf_not_null (fr : Frame) (pc p : String)
    (h : p ∈ programasOf fr pc) : nullLikeVals.contains p = false := by
  unfold programasOf at h
  have h2 := (sortBy_perm lexLeS _).mem_iff.mp h
  have h3 := mem_dedupFirst _ _ h2
  rcases List.mem_filterMap.mp h3 with ⟨v, _, hv⟩
  exact (progClean_spec v p hv).1

/-- C6: for selections drawn from the offered options, a row passes the
filter exactly when (the program selection is the sentinel, or the row's
trimmed program cell equals the selection) and (the year selection is the
sentinel, or the trimmed year cell contains the selected year as a
substring); the filtered frame keeps all columns and the original row
order (filter preserves order). -/
theorem filter_engine_correct (fr : Frame) (pc yc progSel yearSel : String)
    (hp : progSel = sentinelProg ∨ progSel ∈ programasOf fr pc) :
    (filterFrame fr pc yc progSel yearSel).cols = fr.cols ∧
    (filterFrame fr pc yc progSel yearSel).rows = fr.rows.filter (fun row =>
      ((progSel == sentinelProg) || (pyStripS (cellAt fr row pc) == progSel)) &&
      ((yearSel == sentinelYear) ||
        hasSubS yearSel (pyStripS (cellAt fr row yc)))) := by
  refine ⟨rfl, ?_⟩
  show fr.rows.filter (rowKeptB fr pc yc progSel yearSel) = _
  apply List.filter_congr
  intro row _
  unfold rowKeptB
  rcases hp with hp | hp
  · subst hp
    simp
  · have hnn : nullLikeVals.contains progSel = false :=
      mem_programasOf_not_null fr pc progSel hp
    have key : (progClean (cellAt fr row pc) == some progSel) =
        (pyStripS (cellAt fr row pc) == progSel) := by
      unfold progClean
      by_cases hc : nullLikeVals.contains (pyStripS (cellAt fr row pc)) = true
      · rw [if_pos hc]
        have hne : ¬(pyStripS (cellAt fr row pc) = progSel) := by
          intro he
          rw [he, hnn] at hc
          cases hc
        simp [hne]
      · rw [if_neg hc]
        rfl
    rw [key]

/-- C6 witness: selecting a concrete program and the year 2020 keeps
exactly the row whose trimmed program matches and whose year cell
2019-2020 contains 2020. -/
theorem filter_engine_correct_witness :
    ("Ing" ∈ programasOf frFilter "Programa") ∧
    (filterFrame frFilter "Programa" "AñoEgreso" "Ing" "2020").cols =
      frFilter.cols ∧
    (filterFrame frFilter "Programa" "AñoEgreso" "Ing" "2020").rows =
      [["Ing ", "2019-2020"]] ∧
    hasSubS "2020" (pyStripS "2019-2020") = true := by
  have h := filter_engine_correct frFilter "Programa" "AñoEgreso" "Ing" "2020"
    (Or.inr (by decide))
  exact ⟨by decide, h.1, by decide, by decide⟩

/-! Sentinel analysis (C7). -/

theorem matchYearAt_spec (l : List Char) (m : List Char)
    (h : matchYearAt l = some m) : m.length = 4 ∧ m.all isDigitChar = true := by
  match l with
  | [] => cases h
  | [a] => cases h
  | [a, b] => cases h
  | [a, b, c] => cases h
  | a :: b :: c :: d :: tail =>
    dsimp only [matchYearAt] at h
    split_ifs at h with h1 h2 h3
    · have hm := (Option.some.inj h).symm
      subst hm
      simp only [Bool.and_eq_true, beq_iff_eq] at h1
      obtain ⟨⟨⟨ha, hb⟩, hc⟩, hd⟩ := h1
      subst ha
      subst hb
      simp [List.all_cons, hc, hd]
      exact ⟨by decide, by decide⟩
    · have hm := (Option.some.inj h).symm
      subst hm
      simp only [Bool.and_eq_true, beq_iff_eq] at h2
      obtain ⟨⟨⟨ha, hb⟩, hc⟩, hd⟩ := h2
      subst ha
      subst hb
      simp [List.all_cons, hc, hd]
      exact ⟨by decide, by decide⟩
    · have hm := (Option.some.inj h).symm
      subst hm
      simp only [Bool.and_eq_true, beq_iff_eq] at h3
      obtain ⟨⟨⟨ha, hb⟩, hc⟩, hd⟩ := h3
      subst ha
      subst hb
      subst hc
      subst hd
      refine ⟨rfl, by decide⟩

theorem yearSearchL_spec :
    ∀ (l m : List Char), yearSearchL l = some m →
      m.length = 4 ∧ m.all isDigitChar = true := by
  intro l
  induction l with
  | nil => intro m h; cases h
  | cons c rest ih =>
    intro m h
    unfold yearSearchL at h
    cases hm : matchYearAt (c :: rest) with
    | some m2 =>
      rw [hm] at h
      have he : m2 = m := Option.some.inj h
      subst he
      exact matchYearAt_spec _ _ hm
    | none =>
      rw [hm] at h
      exact ih m h

/-- C7 amended: every year value ever offered on the year axis is a
four-character digit string, so the year sentinel Todos can never collide
with a data value; the program sentinel, by contrast, is an ordinary
string that a data cell can equal (see the counterexample). -/
theorem year_values_are_digits (fr : Frame) (yc y : String)
    (hy : y ∈ yearsOf fr yc) :
    y.data.length = 4 ∧ y.data.all isDigitChar = true ∧
      y ≠ sentinelYear ∧ y ≠ sentinelProg := by
  unfold yearsOf at hy
  have hy2 := (sortBy_perm yearLe _).mem_iff.mp hy
  have hy3 := mem_dedupFirst _ _ hy2
  rcases List.mem_filterMap.mp hy3 with ⟨v, _, hv⟩
  unfold yearSearchS at hv
  cases hm : yearSearchL v.data with
  | none =>
    rw [hm] at hv
    cases hv
  | some m =>
    rw [hm] at hv
    have he : (⟨m⟩ : String) = y := Option.some.inj hv
    obtain ⟨hlen, hdig⟩ := yearSearchL_spec v.data m hm
    have hdata : y.data = m := by rw [← he]
    refine ⟨by rw [hdata]; exact hlen, by rw [hdata]; exact hdig, ?_, ?_⟩
    · intro hcol
      have := congrArg (fun s => s.data.length) hcol
      simp only [hdata] at this
      rw [hlen] at this
      cases this
    · intro hcol
      have := congrArg (fun s => s.data.length) hcol
      simp only [hdata] at this
      rw [hlen] at this
      cases this

/-- C7 counterexample: a program cell literally equal to the sentinel
Todos los programas appears among the offered program values, so the
sentinel collides with a real data value, and selecting it keeps all rows
(no constraint) rather than filtering on that real value. -/
theorem program_sentinel_collision_cex :
    sentinelProg ∈ programasOf frCollide "Programa" ∧
    (filterFrame frCollide "Programa" "AñoEgreso" sentinelProg
      sentinelYear).rows = frCollide.rows := by
  exact ⟨by decide, by decide⟩

/-- C7 witness: the year 2019 offered by the filter fixture is a
four-digit string distinct from the sentinel. -/
theorem year_values_are_digits_witness :
    ("2019" ∈ yearsOf frFilter "AñoEgreso") ∧ ("2019" : String).data.length = 4 ∧
      ("2019" : String) ≠ sentinelYear := by
  have h := year_values_are_digits frFilter "AñoEgreso" "2019" (by decide)
  exact ⟨by decide, h.1, h.2.2.1⟩

/-! Report driver (C8). -/

theorem processQuestion_guard (fr : Frame) (q : Question)
    (hcol : pyUpperS q.qtype = "MULTI_COLS" ∨
      ∃ c, q.column = some c ∧ c ≠ "" ∧ fr.cols.contains c = true) :
    (pyUpperS q.qtype != "MULTI_COLS" &&
      ((match q.column with | none => true | some c => c == "") ||
        !(fr.cols.contains (q.column.getD "")))) = false := by
  rcases hcol with hmc | ⟨c, hc, hne, hmem⟩
  · rw [hmc]
    simp
  · rw [hc]
    simp only [Option.getD_some]
    have h1 : (c == "") = false := by
      simp [hne]
    rw [h1, hmem]
    simp

/-- C8 amended: for a question whose column is configured and present in
the frame (or whose type is MULTI_COLS, which takes no single column), the
driver emits the unsupported-type notice exactly when the uppercased type
is outside the closed set of five supported types, and dispatches each
supported type to its aggregator; and the question's processing is local:
whatever the surrounding questions are, a question whose section is in the
section list contributes exactly its own outcome to the report.  Without
that column condition the driver instead emits the local missing-column
warning (see the counterexample). -/
theorem report_driver_dispatch (fr : Frame) (topk : Nat) (q : Question)
    (hcol : pyUpperS q.qtype = "MULTI_COLS" ∨
      ∃ c, q.column = some c ∧ c ≠ "" ∧ fr.cols.contains c = true) :
    (processQuestion fr topk q = RenderResult.unsupported (pyUpperS q.qtype) ↔
      pyUpperS q.qtype ∉ supportedTypes) ∧
    (pyUpperS q.qtype = "BINARIA" → processQuestion fr topk q =
      RenderResult.binaryOut
        (chartBinary ((colCells fr (q.column.getD "")).map some))) ∧
    (pyUpperS q.qtype = "CATEGORICA" → processQuestion fr topk q =
      RenderResult.categoricalOut
        (chartCategorical (q.column.getD "")
          ((colCells fr (q.column.getD "")).map some) topk)) ∧
    (pyUpperS q.qtype = "MULTI" → processQuestion fr topk q =
      RenderResult.multiOut
        (chartMulti ((colCells fr (q.column.getD "")).map some) topk)) ∧
    (pyUpperS q.qtype = "LIKERT" → processQuestion fr topk q =
      RenderResult.likertOut
        (chartLikert ((colCells fr (q.column.getD "")).map some))) ∧
    (pyUpperS q.qtype = "MULTI_COLS" → processQuestion fr topk q =
      RenderResult.multiColsOut (chartMultiFromCols fr q.columns topk)) ∧
    (∀ qs1 qs2 : List Question, pyUpperS q.qsection ∈ sectionsList →
      processQuestion fr topk q ∈ renderAll fr topk (qs1 ++ q :: qs2)) := by
  have hguard := processQuestion_guard fr q hcol
  have hproc : processQuestion fr topk q =
      (if pyUpperS q.qtype == "BINARIA" then
        RenderResult.binaryOut
          (chartBinary ((colCells fr (q.column.getD "")).map some))
      else if pyUpperS q.qtype == "CATEGORICA" then
        RenderResult.categoricalOut
          (chartCategorical (q.column.getD "")
            ((colCells fr (q.column.getD "")).map some) topk)
      else if pyUpperS q.qtype == "MULTI" then
        RenderResult.multiOut
          (chartMulti ((colCells fr (q.column.getD "")).map some) topk)
      else if pyUpperS q.qtype == "LIKERT" then
        RenderResult.likertOut
          (chartLikert ((colCells fr (q.column.getD "")).map some))
      else if pyUpperS q.qtype == "MULTI_COLS" then
        RenderResult.multiColsOut (chartMultiFromCols fr q.columns topk)
      else RenderResult.unsupported (pyUpperS q.qtype)) := by
    unfold processQuestion
    rw [if_neg (by rw [hguard]; exact Bool.false_ne_true)]
  refine ⟨?_, ?_, ?_, ?_, ?_, ?_, ?_⟩
  · rw [hproc]
    by_cases h1 : pyUpperS q.qtype = "BINARIA"
    · rw [if_pos (by simp [h1])]
      refine iff_of_false (by simp) (by simp [h1, supportedTypes])
    · rw [if_neg (by simp [h1])]
      by_cases h2 : pyUpperS q.qtype = "CATEGORICA"
      · rw [if_pos (by simp [h2])]
        refine iff_of_false (by simp) (by simp [h2, supportedTypes])
      · rw [if_neg (by simp [h2])]
        by_cases h3 : pyUpperS q.qtype = "MULTI"
        · rw [if_pos (by simp [h3])]
          refine iff_of_false (by simp) (by simp [h3, supportedTypes])
        · rw [if_neg (by simp [h3])]
          by_cases h4 : pyUpperS q.qtype = "LIKERT"
          · rw [if_pos (by simp [h4])]
            refine iff_of_false (by simp) (by simp [h4, supportedTypes])
          · rw [if_neg (by simp [h4])]
            by_cases h5 : pyUpperS q.qtype = "MULTI_COLS"
            · rw [if_pos (by simp [h5])]
              refine iff_of_false (by simp) (by simp [h5, supportedTypes])
            · rw [if_neg (by simp [h5])]
              refine iff_of_true rfl ?_
              simp [supportedTypes, h1, h2, h3, h4, h5]
  · intro h1
    rw [hproc, if_pos (by simp [h1])]
  · intro h2
    rw [hproc, if_neg (by simp [h2]), if_pos (by simp [h2])]
  · intro h3
    rw [hproc, if_neg (by simp [h3]), if_neg (by simp [h3]),
      if_pos (by simp [h3])]
  · intro h4
    rw [hproc, if_neg (by simp [h4]), if_neg (by simp [h4]),
      if_neg (by simp [h4]), if_pos (by simp [h4])]
  · intro h5
    rw [hproc, if_neg (by simp [h5]), if_neg (by simp [h5]),
      if_neg (by simp [h5]), if_neg (by simp [h5]), if_pos (by simp [h5])]
  · intro qs1 qs2 hsec
    unfold renderAll
    rw [List.mem_flatMap]
    refine ⟨pyUpperS q.qsection, hsec, ?_⟩
    apply List.mem_map_of_mem
    refine List.mem_filter.mpr ⟨?_, by simp⟩
    exact List.mem_append_right qs1 (List.mem_cons_self q qs2)

/-- C8 counterexample: a question of the supported type BINARIA whose
configured column is absent from the frame is answered with the local
missing-column warning, not a dispatch to the binary aggregator, so the
dispatch-iff-supported reading fails without the column condition. -/
theorem report_driver_missing_col_cex :
    processQuestion frNoX 10 qBinMissing = RenderResult.warnMissing (some "X") ∧
    pyUpperS qBinMissing.qtype ∈ supportedTypes ∧
    processQuestion frNoX 10 qBinMissing ≠
      RenderResult.binaryOut (chartBinary ((colCells frNoX "X").map some)) := by
  refine ⟨by decide, by decide, by decide⟩

/-- C8 witness: a binary question dispatches to the binary aggregator, an
unknown type gets the unsupported notice, and a question contributes its
outcome to the report when its section is listed. -/
theorem report_driver_dispatch_witness :
    processQuestion frFilter 10 qBinOk =
      RenderResult.binaryOut
        (chartBinary ((colCells frFilter "Programa").map some)) ∧
    processQuestion frFilter 10 qFoo =
      RenderResult.unsupported (pyUpperS "FOO") ∧
    processQuestion frFilter 10 qBinOk ∈ renderAll frFilter 10 [qBinOk] := by
  have hb := report_driver_dispatch frFilter 10 qBinOk
    (Or.inr ⟨"Programa", rfl, by decide, by decide⟩)
  have hf := report_driver_dispatch frFilter 10 qFoo
    (Or.inr ⟨"Programa", rfl, by decide, by decide⟩)
  refine ⟨hb.2.1 (by decide), (hf.1).mpr (by decide), ?_⟩
  exact hb.2.2.2.2.2.2 [] [] (by decide)

end Encuesta
